import Mathlib

/-!
Verification development for the rfunge Befunge-98 interpreter core.

The repository ships only the C binding header (src/rfunge.h); the engine
behind the handle (Funge-space, stacks, instruction pointers, scheduler,
instruction dispatch, I/O adapter) is described by the specification.
The definitions below are therefore a shallow embedding of that core,
modelled from the spec where the engine source is not available, and from
the header for the binding surface.
-/

namespace RFunge

/-- A Funge-space coordinate / movement vector: an integer pair (x, y). -/
abbrev Coord := Int × Int

/-- Componentwise vector addition, used for IP movement. -/
def addV (a b : Coord) : Coord := (a.1 + b.1, a.2 + b.2)

/-- Componentwise vector subtraction, used by the wraparound backtrack. -/
def subV (a b : Coord) : Coord := (a.1 - b.1, a.2 - b.2)

/-- Vector negation: the reflect policy reverses an IP's delta in place. -/
def negV (a : Coord) : Coord := (-a.1, -a.2)

/-- Modelled from the spec: a Cell is a signed integer value; unset
coordinates read as the cell value for space, conventionally 0. -/
abbrev Cell := Int

/-- Association-list lookup for the sparse cell store; absent keys read
as the space cell value 0. -/
def lookupCell : List (Coord × Cell) → Coord → Cell
  | [], _ => 0
  | (q, v) :: rest, p => if p = q then v else lookupCell rest p

/-- Modelled from the spec: Funge-space is a sparse mapping from integer
coordinate pairs to Cells, with a dynamically maintained bounding
rectangle updated whenever a coordinate outside the current box is
written. The engine source is not in the repository; this follows the
data-model section of the spec. Cells are stored newest-first. -/
structure FungeSpace where
  cells : List (Coord × Cell)
  bounds : Option (Coord × Coord)
deriving DecidableEq

/-- The empty Funge-space created at interpreter construction. -/
def FungeSpace.empty : FungeSpace := ⟨[], none⟩

/-- Space read: never fails; coordinates never written give the space
cell value 0. -/
def FungeSpace.get (sp : FungeSpace) (p : Coord) : Cell :=
  lookupCell sp.cells p

/-- Expand a bounding box (lower-left, upper-right corners) to cover a
newly written coordinate. -/
def expandBounds : Option (Coord × Coord) → Coord → Coord × Coord
  | none, p => (p, p)
  | some (lo, hi), p =>
      ((min lo.1 p.1, min lo.2 p.2), (max hi.1 p.1, max hi.2 p.2))

/-- Space write: records the cell and expands the bounding box if the
coordinate lies outside the current box. -/
def FungeSpace.put (sp : FungeSpace) (p : Coord) (v : Cell) : FungeSpace :=
  ⟨(p, v) :: sp.cells, some (expandBounds sp.bounds p)⟩

/-- Apply a list of writes, oldest first, starting from a given space. -/
def applyPuts : List (Coord × Cell) → FungeSpace → FungeSpace
  | [], sp => sp
  | (p, v) :: rest, sp => applyPuts rest (sp.put p v)

/-- Modelled from the spec: a Stack is an ordered LIFO sequence of Cells,
head = top. -/
abbrev Stack := List Cell

/-- Stack push. -/
def stackPush (v : Cell) (s : Stack) : Stack := v :: s

/-- Stack pop: popping an empty stack yields the Cell value 0 rather
than failing (language-mandated sentinel). -/
def stackPop : Stack → Cell × Stack
  | [] => (0, [])
  | v :: rest => (v, rest)

/-- A single stack operation, for stating history-independent facts
about pop-on-empty behaviour. -/
inductive StackOp where
  | push (v : Cell)
  | pop
deriving DecidableEq

/-- Run a sequence of stack operations on a stack. -/
def runStackOps : List StackOp → Stack → Stack
  | [], s => s
  | .push v :: rest, s => runStackOps rest (stackPush v s)
  | .pop :: rest, s => runStackOps rest (stackPop s).2

/-- Every pop executed while the current stack is empty yields the value
0 and leaves the (still empty) stack intact; stated over an arbitrary
remaining operation sequence. -/
def PopsOnEmptyYieldZero : List StackOp → Stack → Prop
  | [], _ => True
  | .push v :: rest, s => PopsOnEmptyYieldZero rest (stackPush v s)
  | .pop :: rest, s =>
      (s = [] → (stackPop s).1 = 0 ∧ (stackPop s).2 = []) ∧
      PopsOnEmptyYieldZero rest (stackPop s).2

/-- Modelled from the spec: an Instruction Pointer carries an identifier
(for deterministic ordering and split lineage), a position, a movement
delta, its own Stack-Stack (never shared), a storage offset, and a
string-mode flag. The engine source is not in the repository. -/
structure IP where
  id : Nat
  pos : Coord
  delta : Coord
  ss : List Stack
  offset : Coord
  stringMode : Bool
deriving DecidableEq

/-- Push onto the IP's top-of-stack-stack. -/
def ipPush (v : Cell) (ip : IP) : IP :=
  match ip.ss with
  | [] => { ip with ss := [[v]] }
  | t :: r => { ip with ss := stackPush v t :: r }

/-- Pop from the IP's top-of-stack-stack; empty pops yield 0. -/
def ipPop (ip : IP) : Cell × IP :=
  match ip.ss with
  | [] => (0, ip)
  | t :: r =>
      let p := stackPop t
      (p.1, { ip with ss := p.2 :: r })

/-- Modelled from the spec: begin_block pushes a new Stack, moves the top
n values (padding with 0 if the source stack is shorter) from the stack
beneath into the new top stack preserving order, and sets a new storage
offset equal to the IP's current position plus delta. -/
def beginBlock (n : Nat) (ip : IP) : IP :=
  match ip.ss with
  | [] =>
      { ip with ss := [List.replicate n 0, []],
                offset := addV ip.pos ip.delta }
  | t :: r =>
      { ip with
          ss := (t.take n ++ List.replicate (n - t.length) 0) :: t.drop n :: r,
          offset := addV ip.pos ip.delta }

/-- Modelled from the spec: end_block is the symmetric inverse of
begin_block, transferring the top n values onto the stack beneath; if
only one stack remains it instead reflects the IP (it cannot pop the
last stack). -/
def endBlock (n : Nat) (ip : IP) : IP :=
  match ip.ss with
  | t :: s :: r =>
      { ip with ss := (t.take n ++ List.replicate (n - t.length) 0 ++ s) :: r }
  | _ => { ip with delta := negV ip.delta }

/-- Bounding-box membership test against corners lo (min) and hi (max). -/
def inBox (lo hi p : Coord) : Bool :=
  lo.1 ≤ p.1 && p.1 ≤ hi.1 && lo.2 ≤ p.2 && p.2 ≤ hi.2

/-- Fuel bound for the wraparound walks: enough steps to cross the
bounding box along any non-zero delta. -/
def wrapFuel (lo hi : Coord) : Nat :=
  (hi.1 - lo.1).toNat + (hi.2 - lo.2).toNat + 2

/-- Modelled from the spec: the backtrack half of the Lahey-space rule.
From a position that has left the box, step against the delta while the
previous cell on the line is still inside the box; this lands on the
re-entry cell at the opposite edge of the box along the delta. -/
def wrapBack (lo hi d : Coord) : Nat → Coord → Coord
  | 0, q => q
  | fuel + 1, q =>
      if inBox lo hi (subV q d) then wrapBack lo hi d fuel (subV q d) else q

/-- Modelled from the spec: after re-entry the IP skips over any space
cells, continuing along the delta until a non-space cell or the box
boundary in the new direction is reached. -/
def skipSpaces (sp : FungeSpace) (lo hi d : Coord) : Nat → Coord → Coord
  | 0, q => q
  | fuel + 1, q =>
      if sp.get q ≠ 0 then q
      else if inBox lo hi (addV q d) then skipSpaces sp lo hi d fuel (addV q d)
      else q

/-- Modelled from the spec: one movement step of an IP. The position
advances by the delta; if that leaves the current bounding box, the
Lahey-space rule relocates it to the first in-bounds cell reached when
continuing from the opposite edge of the box, skipping spaces. -/
def fsStep (sp : FungeSpace) (d : Coord) (pos : Coord) : Coord :=
  let p := addV pos d
  match sp.bounds with
  | none => p
  | some (lo, hi) =>
      if inBox lo hi p then p
      else skipSpaces sp lo hi d (wrapFuel lo hi)
            (wrapBack lo hi d (wrapFuel lo hi) p)

/-- Modelled from the spec: one scripted response of the host's input
callback — a delivered character, end-of-input (which the core maps to
pushing -1), or a failure (negative return, which terminates the
issuing IP). -/
inductive InpResp where
  | ch (c : Cell)
  | eof
  | fail
deriving DecidableEq

/-- One output-callback invocation, as observed by the host: a number
written by the numeric output instruction, or a character written by
the character output instruction. -/
inductive OutEvent where
  | num (v : Cell)
  | ch (v : Cell)
deriving DecidableEq

/-- Modelled from the spec: the interpreter-wide environment — the
Funge-space, the monotonically increasing IP-id counter, the scripted
I/O callback responses, and the observable logs (output-callback calls,
Funge-space mutations, and the dispatch trace of IP ids). The engine
source is not in the repository. -/
structure Interp where
  space : FungeSpace
  nextId : Nat
  inputScript : List InpResp
  writeResp : List Int
  outputs : List OutEvent
  mutations : List (Coord × Cell)
  trace : List Nat
deriving DecidableEq

/-- Consume the next scripted write-callback return value; an exhausted
script reads as success (positive count). -/
def takeWriteResp (env : Interp) : Int × Interp :=
  match env.writeResp with
  | [] => (1, env)
  | r :: rest => (r, { env with writeResp := rest })

/-- Result of dispatching one instruction for one IP: the updated
issuing IP, an optional freshly spawned IP (split), and whether the
issuing IP terminated. -/
structure DispRes where
  ip : IP
  spawn : Option IP
  dead : Bool
deriving DecidableEq

/-- Pop two values and push the result of a binary operation (the
second-popped value is the left operand). -/
def ipArith (f : Cell → Cell → Cell) (ip : IP) : IP :=
  let pa := ipPop ip
  let pb := ipPop pa.2
  ipPush (f pb.1 pa.1) pb.2

/-- The reflect policy: reverse the IP's delta in place. -/
def reflect (ip : IP) : IP := { ip with delta := negV ip.delta }

/-- Movement-and-mode opcodes (space/no-op, string-mode toggle, the four
cardinal deltas, bridge); none when the opcode is not one of them. -/
def moveOp? (sp : FungeSpace) (ip : IP) (c : Cell) : Option IP :=
  if c = 0 ∨ c = 32 then some ip
  else if c = 34 then some { ip with stringMode := true }
  else if c = 60 then some { ip with delta := (-1, 0) }
  else if c = 62 then some { ip with delta := (1, 0) }
  else if c = 94 then some { ip with delta := (0, -1) }
  else if c = 118 then some { ip with delta := (0, 1) }
  else if c = 35 then some { ip with pos := fsStep sp ip.delta ip.pos }
  else none

/-- Pure stack opcodes (arithmetic, dup, swap, discard, block begin and
end); none when the opcode is not one of them. -/
def stackOp? (ip : IP) (c : Cell) : Option IP :=
  if c = 43 then some (ipArith (· + ·) ip)
  else if c = 45 then some (ipArith (· - ·) ip)
  else if c = 42 then some (ipArith (· * ·) ip)
  else if c = 58 then
    some (let pa := ipPop ip; ipPush pa.1 (ipPush pa.1 pa.2))
  else if c = 92 then
    some (let pa := ipPop ip
          let pb := ipPop pa.2
          ipPush pb.1 (ipPush pa.1 pb.2))
  else if c = 36 then some (ipPop ip).2
  else if c = 123 then some (let pn := ipPop ip; beginBlock pn.1.toNat pn.2)
  else if c = 125 then some (let pn := ipPop ip; endBlock pn.1.toNat pn.2)
  else none

/-- Effectful opcodes (terminate, split, numeric and character output,
character input, space put and get); none when the opcode is not one
of them. -/
def effOp? (env : Interp) (ip : IP) (c : Cell) : Option (Interp × DispRes) :=
  if c = 64 then some (env, ⟨ip, none, true⟩)
  else if c = 116 then
    some ({ env with nextId := env.nextId + 1 },
      ⟨ip, some { ip with id := env.nextId, delta := negV ip.delta }, false⟩)
  else if c = 46 then
    some (let pa := ipPop ip
          let wr := takeWriteResp env
          ({ wr.2 with outputs := wr.2.outputs ++ [OutEvent.num pa.1] },
           ⟨pa.2, none, decide (wr.1 < 0)⟩))
  else if c = 44 then
    some (let pa := ipPop ip
          let wr := takeWriteResp env
          ({ wr.2 with outputs := wr.2.outputs ++ [OutEvent.ch pa.1] },
           ⟨pa.2, none, decide (wr.1 < 0)⟩))
  else if c = 126 then
    some (match env.inputScript with
      | [] => (env, ⟨ipPush (-1) ip, none, false⟩)
      | InpResp.ch v :: rest =>
          ({ env with inputScript := rest }, ⟨ipPush v ip, none, false⟩)
      | InpResp.eof :: rest =>
          ({ env with inputScript := rest }, ⟨ipPush (-1) ip, none, false⟩)
      | InpResp.fail :: rest =>
          ({ env with inputScript := rest }, ⟨ip, none, true⟩))
  else if c = 112 then
    some (let py := ipPop ip
          let px := ipPop py.2
          let pv := ipPop px.2
          let p : Coord := (px.1 + ip.offset.1, py.1 + ip.offset.2)
          ({ env with space := env.space.put p pv.1,
                      mutations := env.mutations ++ [(p, pv.1)] },
           ⟨pv.2, none, false⟩))
  else if c = 103 then
    some (let py := ipPop ip
          let px := ipPop py.2
          let p : Coord := (px.1 + ip.offset.1, py.1 + ip.offset.2)
          (env, ⟨ipPush (env.space.get p) px.2, none, false⟩))
  else none

/-- Modelled from the spec: instruction dispatch — a pure transform
consuming the Cell at the IP's position as an opcode (or, in string
mode, as a literal pushed value unless it is the delimiter). Covers a
representative subset of the Funge-98 set: space/no-op, string mode,
digits, arithmetic, dup/swap/discard, the four cardinal deltas, bridge,
space access put/get (relative to the storage offset), block begin/end,
split, numeric and character output, character input, and terminate;
anything else reflects. The engine source is not in the repository. -/
def dispatchC (env : Interp) (ip : IP) (c : Cell) : Interp × DispRes :=
  if ip.stringMode then
    if c = 34 then (env, ⟨{ ip with stringMode := false }, none, false⟩)
    else (env, ⟨ipPush c ip, none, false⟩)
  else if 48 ≤ c ∧ c ≤ 57 then (env, ⟨ipPush (c - 48) ip, none, false⟩)
  else
    match moveOp? env.space ip c with
    | some ip2 => (env, ⟨ip2, none, false⟩)
    | none =>
        match stackOp? ip c with
        | some ip2 => (env, ⟨ip2, none, false⟩)
        | none =>
            match effOp? env ip c with
            | some r => r
            | none => (env, ⟨reflect ip, none, false⟩)

/-- Dispatch proper: the opcode is the Cell at the IP's position. -/
def dispatch (env : Interp) (ip : IP) : Interp × DispRes :=
  dispatchC env ip (env.space.get ip.pos)

/-- Dispatch one IP and apply movement: record the dispatch in the
trace, run the instruction, and — unless the IP terminated — advance
the position by the delta with wraparound. A split's sibling is placed
immediately after its parent in the returned segment. -/
def stepIP (env : Interp) (ip : IP) : Interp × List IP :=
  let env0 := { env with trace := env.trace ++ [ip.id] }
  let dr := dispatch env0 ip
  let env1 := dr.1
  let r := dr.2
  if r.dead then (env1, [])
  else
    let p := { r.ip with pos := fsStep env1.space r.ip.delta r.ip.pos }
    match r.spawn with
    | none => (env1, [p])
    | some c =>
        (env1, [p, { c with pos := fsStep env1.space c.delta c.pos }])

/-- One scheduler pass over the live sequence: every IP is dispatched
exactly once, in order, each contributing a segment of surviving IPs
(empty if it terminated; parent then sibling if it split). -/
def tickSegs (env : Interp) : List IP → Interp × List (List IP)
  | [] => (env, [])
  | ip :: rest =>
      let r := stepIP env ip
      let rr := tickSegs r.1 rest
      (rr.1, r.2 :: rr.2)

/-- The whole interpreter state driven by run: environment plus the
live ordered sequence of IPs. -/
structure MachineState where
  env : Interp
  ips : List IP
deriving DecidableEq

/-- Modelled from the spec: one scheduler tick — exactly one dispatch
per currently-live IP in sequence order, spawns and terminations taking
effect in the live list only after the full pass. -/
def tick (s : MachineState) : MachineState :=
  let r := tickSegs s.env s.ips
  ⟨r.1, r.2.flatten⟩

/-- Modelled from the spec: the run loop ticks until the live sequence
is empty; a fuel parameter makes the (possibly diverging) loop total. -/
def runFuel : Nat → MachineState → MachineState
  | 0, s => s
  | n + 1, s => if s.ips = [] then s else runFuel n (tick s)

/-- Is a byte a UTF-8 continuation byte? -/
def isCont (b : Nat) : Bool := 128 ≤ b && b ≤ 191

/-- Modelled from the spec: Unicode-mode source decoding. The buffer
must decode fully (here: strict UTF-8, rejecting stray continuation
bytes, truncated sequences, overlong forms, surrogates and
out-of-range code points); otherwise loading fails. -/
def decodeUtf8 : List Nat → Option (List Nat)
  | [] => some []
  | b :: rest =>
      if b ≤ 127 then (decodeUtf8 rest).map (b :: ·)
      else if 194 ≤ b && b ≤ 223 then
        match rest with
        | b1 :: rest2 =>
            if isCont b1 then
              (decodeUtf8 rest2).map (((b - 192) * 64 + (b1 - 128)) :: ·)
            else none
        | _ => none
      else if 224 ≤ b && b ≤ 239 then
        match rest with
        | b1 :: b2 :: rest3 =>
            if isCont b1 && isCont b2 then
              let cp := (b - 224) * 4096 + (b1 - 128) * 64 + (b2 - 128)
              if 2048 ≤ cp && !(55296 ≤ cp && cp ≤ 57343) then
                (decodeUtf8 rest3).map (cp :: ·)
              else none
            else none
        | _ => none
      else if 240 ≤ b && b ≤ 244 then
        match rest with
        | b1 :: b2 :: b3 :: rest4 =>
            if isCont b1 && isCont b2 && isCont b3 then
              let cp := (b - 240) * 262144 + (b1 - 128) * 4096 +
                        (b2 - 128) * 64 + (b3 - 128)
              if 65536 ≤ cp && cp ≤ 1114111 then
                (decodeUtf8 rest4).map (cp :: ·)
              else none
            else none
        | _ => none
      else none

/-- Split a decoded code-point sequence into lines at newline (10),
accumulating the current line in reverse. -/
def splitLinesAux : List Nat → List Nat → List (List Nat)
  | [], acc => [acc.reverse]
  | c :: rest, acc =>
      if c = 10 then acc.reverse :: splitLinesAux rest []
      else splitLinesAux rest (c :: acc)

/-- Write one source row into Funge-space left-to-right at row y,
starting at column x. -/
def writeRow (sp : FungeSpace) (y x : Int) : List Nat → FungeSpace
  | [] => sp
  | c :: rest => writeRow (sp.put (x, y) (Int.ofNat c)) y (x + 1) rest

/-- Write the source rows into Funge-space, one row per input line,
each new line advancing y and resetting x to the origin column. -/
def writeRows (sp : FungeSpace) (y : Int) : List (List Nat) → FungeSpace
  | [] => sp
  | row :: rest => writeRows (writeRow sp y 0 row) (y + 1) rest

/-- Modelled from the spec: load-source takes a raw byte buffer, decodes
it under the selected cell mode (byte mode never fails; Unicode mode
fails on malformed encoding), and writes the text into Funge-space
starting at the origin, one row per input line. -/
def loadSrc (unicodeMode : Bool) (buf : List Nat) : Option FungeSpace :=
  match (if unicodeMode then decodeUtf8 buf else some buf) with
  | none => none
  | some cps => some (writeRows FungeSpace.empty 0 (splitLinesAux cps []))

/-- Modelled from the spec: construct-and-load. On load failure no
machine state is produced, so no execution can begin; on success the
machine starts with one IP at the origin with delta east, id 0, an
empty initial stack, and id counter 1. -/
def initMachine (unicodeMode : Bool) (buf : List Nat)
    (ins : List InpResp) (ws : List Int) : Option MachineState :=
  (loadSrc unicodeMode buf).map fun sp =>
    ⟨⟨sp, 1, ins, ws, [], [], []⟩, [⟨0, (0, 0), (1, 0), [[]], (0, 0), false⟩]⟩

/-- Modelled from the spec: the host-visible result of a full run — the
sequence of output-callback calls — or none when loading failed and
execution never began. -/
def runHost (fuel : Nat) (unicodeMode : Bool) (buf : List Nat)
    (ins : List InpResp) (ws : List Int) : Option (List OutEvent) :=
  (initMachine unicodeMode buf ins ws).map fun s => (runFuel fuel s).env.outputs

/-- Modelled from the header src/rfunge.h and the spec: the constructed
binding-level interpreter handle stores the cell mode, the three host
callbacks (standard output, standard input, error output) and the one
opaque host context value passed as the single user-data argument of
the constructor. A write callback receives a byte span (with its
length implicit in the list) and the context; a read callback receives
a capacity and the context and returns a signed count plus the bytes. -/
structure CInterp (γ : Type) where
  unicodeMode : Bool
  out_cb : List Nat → γ → Int
  in_cb : Nat → γ → Int × List Nat
  err_cb : List Nat → γ → Int
  user_data : γ

/-- Modelled from the header src/rfunge.h: rfunge_new_befunge_interpreter
takes the cell mode, the three callbacks, and exactly one opaque context
pointer. -/
def rfunge_new_befunge_interpreter {γ : Type} (unicode_mode : Bool)
    (out_cb : List Nat → γ → Int) (in_cb : Nat → γ → Int × List Nat)
    (err_cb : List Nat → γ → Int) (user_data : γ) : CInterp γ :=
  ⟨unicode_mode, out_cb, in_cb, err_cb, user_data⟩

/-- Modelled from the spec: every standard-output callback invocation
passes the handle's stored context value. -/
def CInterp.callOut {γ : Type} (it : CInterp γ) (buf : List Nat) : Int :=
  it.out_cb buf it.user_data

/-- Modelled from the spec: every standard-input callback invocation
passes the handle's stored context value. -/
def CInterp.callIn {γ : Type} (it : CInterp γ) (cap : Nat) : Int × List Nat :=
  it.in_cb cap it.user_data

/-- Modelled from the spec: every error-output callback invocation
passes the handle's stored context value. -/
def CInterp.callErr {γ : Type} (it : CInterp γ) (buf : List Nat) : Int :=
  it.err_cb buf it.user_data

/-- Observation relation for a run: relates a start state and a fuel
budget to the observable sequence of output-callback calls and
Funge-space mutations the run produces. -/
inductive RunObs : MachineState → Nat → List OutEvent → List (Coord × Cell) → Prop where
  | run (s : MachineState) (n : Nat) :
      RunObs s n (runFuel n s).env.outputs (runFuel n s).env.mutations

/-- The machine state produced by loading the one-byte program "@" in
byte mode, used to witness the determinism theorem concretely. -/
def demoState : MachineState :=
  ⟨⟨⟨[((0, 0), 64)], some ((0, 0), (0, 0))⟩, 1, [], [], [], [], []⟩,
   [⟨0, (0, 0), (1, 0), [[]], (0, 0), false⟩]⟩

/-- The shape of the IP segment one dispatched IP contributes to the
next live sequence: nothing if it terminated, itself (same id) if it
merely stepped, or itself followed immediately by a freshly-numbered
sibling if it split. -/
def SegOk (pid bound : Nat) (seg : List IP) : Prop :=
  seg = [] ∨ (∃ p, seg = [p] ∧ p.id = pid) ∨
  (∃ p q, seg = [p, q] ∧ p.id = pid ∧ bound ≤ q.id)

/-- Mutate the Stack-Stack of the i-th IP of a live sequence in place,
leaving every other IP untouched; this is how a stack mutation
performed through one IP acts on the scheduler's list. -/
def mutateSS : List IP → Nat → (List Stack → List Stack) → List IP
  | [], _, _ => []
  | ip :: rest, 0, f => { ip with ss := f ip.ss } :: rest
  | ip :: rest, n + 1, f => ip :: mutateSS rest n f

/-- A concrete environment whose Funge-space holds the split opcode at
the origin, for witnessing the split claim. -/
def demoSplitEnv : Interp :=
  ⟨⟨[((0, 0), 116)], some ((0, 0), (0, 0))⟩, 1, [], [], [], [], []⟩

/-- A concrete IP at the origin facing east with one empty stack. -/
def demoSplitIP : IP := ⟨0, (0, 0), (1, 0), [[]], (0, 0), false⟩

/-- A concrete environment whose Funge-space holds the character-output
opcode at the origin and whose scripted write callback fails, for
witnessing the I/O-failure claim. -/
def demoFailEnv : Interp :=
  ⟨⟨[((0, 0), 44)], some ((0, 0), (0, 0))⟩, 1, [], [-1], [], [], []⟩

/-- The finite set of coordinates inside the bounding box. -/
def boxFinset (lo hi : Coord) : Finset Coord :=
  Finset.Icc lo.1 hi.1 ×ˢ Finset.Icc lo.2 hi.2

lemma get_put (sp : FungeSpace) (q p : Coord) (v : Cell) :
    (sp.put q v).get p = if p = q then v else sp.get p := by
  simp [FungeSpace.put, FungeSpace.get, lookupCell]

lemma applyPuts_get_of_not_written (ps : List (Coord × Cell)) (sp : FungeSpace)
    (p : Coord) (h : ∀ e ∈ ps, e.1 ≠ p) :
    (applyPuts ps sp).get p = sp.get p := by
  induction ps generalizing sp with
  | nil => rfl
  | cons e rest ih =>
      obtain ⟨q, v⟩ := e
      rw [applyPuts, ih _ (fun e he => h e (List.mem_cons_of_mem _ he)),
        get_put]
      have hq : q ≠ p := h (q, v) (List.mem_cons_self _ _)
      simp only [ite_eq_right_iff]
      intro hpq
      exact absurd hpq.symm hq

/-- C3: a coordinate never written reads as the space cell value 0, and
reading is a total operation — it never fails for any coordinate. -/
theorem get_unwritten_zero (ps : List (Coord × Cell)) (p : Coord)
    (h : ∀ e ∈ ps, e.1 ≠ p) :
    (applyPuts ps FungeSpace.empty).get p = 0 := by
  rw [applyPuts_get_of_not_written ps FungeSpace.empty p h]
  rfl

/-- Witness for C3 at a concrete write history: writing (1, 2) and
(3, 4) leaves the untouched coordinate (0, 0) reading 0. -/
theorem get_unwritten_zero_witness :
    (applyPuts [((1, 2), 7), ((3, 4), 9)] FungeSpace.empty).get (0, 0) = 0 :=
  get_unwritten_zero [((1, 2), 7), ((3, 4), 9)] (0, 0) (by decide)

/-- C2: popping an empty Stack yields the Cell value 0 without failing,
and this is history independent — after any sequence of pushes and pops
(in particular one in which pops exceed pushes), every pop that finds
the stack empty yields 0 and leaves it empty. -/
theorem pop_on_empty_yields_zero :
    stackPop ([] : Stack) = ((0 : Cell), ([] : Stack)) ∧
    ∀ (ops : List StackOp) (s : Stack), PopsOnEmptyYieldZero ops s := by
  refine ⟨rfl, ?_⟩
  intro ops
  induction ops with
  | nil => intro s; trivial
  | cons op rest ih =>
      intro s
      cases op with
      | push v => exact ih (stackPush v s)
      | pop =>
          refine ⟨?_, ih (stackPop s).2⟩
          intro hs
          subst hs
          exact ⟨rfl, rfl⟩

/-- C10: the binding constructor takes exactly one opaque host context
value, and that same value is what every invocation of each of the
three callbacks (standard output, standard input, error output)
receives — there is no per-callback context. -/
theorem construct_single_context {γ : Type} (u : Bool)
    (o : List Nat → γ → Int) (i : Nat → γ → Int × List Nat)
    (e : List Nat → γ → Int) (ud : γ) (buf ebuf : List Nat) (cap : Nat) :
    (rfunge_new_befunge_interpreter u o i e ud).callOut buf = o buf ud ∧
    (rfunge_new_befunge_interpreter u o i e ud).callIn cap = i cap ud ∧
    (rfunge_new_befunge_interpreter u o i e ud).callErr ebuf = e ebuf ud :=
  ⟨rfl, rfl, rfl⟩

/-- C1: for a given source program and fixed scripted callback
responses, any two runs observe byte-identical output-callback call
sequences and identical Funge-space mutation sequences — the run is
deterministic in the inputs. -/
theorem run_deterministic (u : Bool) (buf : List Nat) (ins : List InpResp)
    (ws : List Int) (s : MachineState) (n : Nat)
    (o₁ o₂ : List OutEvent) (m₁ m₂ : List (Coord × Cell))
    (_hinit : initMachine u buf ins ws = some s)
    (h₁ : RunObs s n o₁ m₁) (h₂ : RunObs s n o₂ m₂) :
    o₁ = o₂ ∧ m₁ = m₂ := by
  cases h₁
  cases h₂
  exact ⟨rfl, rfl⟩

/-- Witness for C1 at the concrete program "@": two observations of the
same two-tick run agree on outputs and mutations. -/
theorem run_deterministic_witness :
    (runFuel 2 demoState).env.outputs = (runFuel 2 demoState).env.outputs ∧
    (runFuel 2 demoState).env.mutations = (runFuel 2 demoState).env.mutations :=
  run_deterministic false [64] [] [] demoState 2 _ _ _ _ (by decide)
    (RunObs.run demoState 2) (RunObs.run demoState 2)

@[simp] lemma ipPush_id (v : Cell) (ip : IP) : (ipPush v ip).id = ip.id := by
  unfold ipPush; cases ip.ss <;> rfl

@[simp] lemma ipPush_ss_ne (v : Cell) (ip : IP) : (ipPush v ip).ss ≠ [] := by
  unfold ipPush; cases ip.ss <;> simp

@[simp] lemma ipPop_id (ip : IP) : (ipPop ip).2.id = ip.id := by
  unfold ipPop; cases ip.ss <;> rfl

lemma ipPop_ss_len (ip : IP) : (ipPop ip).2.ss.length = ip.ss.length := by
  unfold ipPop
  cases hss : ip.ss with
  | nil => simp [hss]
  | cons t r => simp

lemma ipPop_ss_ne (ip : IP) (h : ip.ss ≠ []) : (ipPop ip).2.ss ≠ [] := by
  rw [← List.length_pos] at h ⊢
  rw [ipPop_ss_len]
  exact h

@[simp] lemma ipArith_id (f : Cell → Cell → Cell) (ip : IP) :
    (ipArith f ip).id = ip.id := by
  unfold ipArith; simp

@[simp] lemma ipArith_ss_ne (f : Cell → Cell → Cell) (ip : IP) :
    (ipArith f ip).ss ≠ [] := by
  unfold ipArith; simp

@[simp] lemma beginBlock_id (n : Nat) (ip : IP) : (beginBlock n ip).id = ip.id := by
  unfold beginBlock; cases ip.ss <;> rfl

@[simp] lemma beginBlock_ss_ne (n : Nat) (ip : IP) : (beginBlock n ip).ss ≠ [] := by
  unfold beginBlock; cases ip.ss <;> simp

@[simp] lemma endBlock_id (n : Nat) (ip : IP) : (endBlock n ip).id = ip.id := by
  unfold endBlock
  cases hss : ip.ss with
  | nil => rfl
  | cons t r => cases r <;> rfl

lemma endBlock_ss_ne (n : Nat) (ip : IP) (h : ip.ss ≠ []) :
    (endBlock n ip).ss ≠ [] := by
  unfold endBlock
  cases hss : ip.ss with
  | nil => exact absurd hss h
  | cons t r => cases r <;> simp [hss]

lemma moveOp_inv (sp : FungeSpace) (ip : IP) (c : Cell) (ip2 : IP)
    (h : moveOp? sp ip c = some ip2) : ip2.id = ip.id ∧ ip2.ss = ip.ss := by
  unfold moveOp? at h
  repeat' split at h
  all_goals simp_all
  all_goals subst h
  all_goals simp

lemma stackOp_inv (ip : IP) (c : Cell) (ip2 : IP)
    (h : stackOp? ip c = some ip2) :
    ip2.id = ip.id ∧ (ip.ss ≠ [] → ip2.ss ≠ []) := by
  unfold stackOp? at h
  repeat' split at h
  all_goals simp_all
  all_goals subst h
  all_goals simp [ipPop_ss_ne, endBlock_ss_ne]
  all_goals intro hss
  · exact ipPop_ss_ne _ hss
  · exact endBlock_ss_ne _ _ (ipPop_ss_ne _ hss)

@[simp] lemma takeWriteResp_trace (env : Interp) :
    (takeWriteResp env).2.trace = env.trace := by
  unfold takeWriteResp; cases env.writeResp <;> rfl

@[simp] lemma takeWriteResp_nextId (env : Interp) :
    (takeWriteResp env).2.nextId = env.nextId := by
  unfold takeWriteResp; cases env.writeResp <;> rfl

lemma effOp_inv (env : Interp) (ip : IP) (c : Cell) (r : Interp × DispRes)
    (h : effOp? env ip c = some r) :
    r.1.trace = env.trace ∧ env.nextId ≤ r.1.nextId ∧ r.2.ip.id = ip.id ∧
    (ip.ss ≠ [] → r.2.ip.ss ≠ []) ∧
    (∀ q, r.2.spawn = some q → q.id = env.nextId ∧ q.ss = r.2.ip.ss ∧
        q.delta = negV ip.delta ∧ r.2.ip = ip) := by
  unfold effOp? at h
  repeat' split at h
  all_goals first
    | (injection h with h; subst h)
    | exact absurd h (by simp)
  all_goals simp [ipPop_ss_ne]
  all_goals intro hss
  · exact ipPop_ss_ne _ hss
  · exact ipPop_ss_ne _ hss
  · exact ipPop_ss_ne _ (ipPop_ss_ne _ (ipPop_ss_ne _ hss))

set_option maxHeartbeats 1600000 in
/-- All the per-dispatch facts needed by the scheduler-level claims:
dispatch never touches the trace, never decreases the id counter,
preserves the issuing IP's id, keeps its Stack-Stack non-empty, and any
spawned IP carries the fresh id, a copy of the issuing IP's Stack-Stack,
and the negated delta. -/
lemma dispatchC_invariants (env : Interp) (ip : IP) (c : Cell) :
    (dispatchC env ip c).1.trace = env.trace ∧
    env.nextId ≤ (dispatchC env ip c).1.nextId ∧
    (dispatchC env ip c).2.ip.id = ip.id ∧
    (ip.ss ≠ [] → (dispatchC env ip c).2.ip.ss ≠ []) ∧
    (∀ q, (dispatchC env ip c).2.spawn = some q →
        q.id = env.nextId ∧ q.ss = (dispatchC env ip c).2.ip.ss ∧
        q.delta = negV ip.delta ∧ (dispatchC env ip c).2.ip = ip) := by
  refine ⟨?_, ?_, ?_, ?_, ?_⟩
  · unfold dispatchC
    repeat' split
    all_goals try rfl
    rename_i r heq
    exact (effOp_inv _ _ _ _ heq).1
  · unfold dispatchC
    repeat' split
    all_goals try exact le_rfl
    rename_i r heq
    exact (effOp_inv _ _ _ _ heq).2.1
  · unfold dispatchC
    repeat' split
    all_goals try simp [reflect]
    · rename_i ip2 heq
      exact (moveOp_inv _ _ _ _ heq).1
    · rename_i ip2 heq
      exact (stackOp_inv _ _ _ heq).1
    · rename_i r heq
      exact (effOp_inv _ _ _ _ heq).2.2.1
  · intro hss
    unfold dispatchC
    repeat' split
    all_goals try simp [reflect, hss]
    · rename_i ip2 heq
      rw [(moveOp_inv _ _ _ _ heq).2]
      exact hss
    · rename_i ip2 heq
      exact (stackOp_inv _ _ _ heq).2 hss
    · rename_i r heq
      exact (effOp_inv _ _ _ _ heq).2.2.2.1 hss
  · intro q hq
    unfold dispatchC at hq ⊢
    revert hq
    repeat' split
    all_goals try simp
    rename_i r heq
    intro hq
    exact (effOp_inv _ _ _ _ heq).2.2.2.2 q hq
lemma dispatch_invariants (env : Interp) (ip : IP) :
    (dispatch env ip).1.trace = env.trace ∧
    env.nextId ≤ (dispatch env ip).1.nextId ∧
    (dispatch env ip).2.ip.id = ip.id ∧
    (ip.ss ≠ [] → (dispatch env ip).2.ip.ss ≠ []) ∧
    (∀ q, (dispatch env ip).2.spawn = some q →
        q.id = env.nextId ∧ q.ss = (dispatch env ip).2.ip.ss ∧
        q.delta = negV ip.delta ∧ (dispatch env ip).2.ip = ip) :=
  dispatchC_invariants env ip (env.space.get ip.pos)


lemma SegOk.mono {pid b b2 : Nat} {seg : List IP} (h : SegOk pid b2 seg)
    (hb : b ≤ b2) : SegOk pid b seg := by
  rcases h with h | ⟨p, hp, hid⟩ | ⟨p, q, hpq, hid, hq⟩
  · exact Or.inl h
  · exact Or.inr (Or.inl ⟨p, hp, hid⟩)
  · exact Or.inr (Or.inr ⟨p, q, hpq, hid, le_trans hb hq⟩)

lemma stepIP_props (env : Interp) (ip : IP) :
    (stepIP env ip).1.trace = env.trace ++ [ip.id] ∧
    env.nextId ≤ (stepIP env ip).1.nextId ∧
    SegOk ip.id env.nextId (stepIP env ip).2 ∧
    (ip.ss ≠ [] → ∀ q ∈ (stepIP env ip).2, q.ss ≠ []) := by
  have hd := dispatch_invariants { env with trace := env.trace ++ [ip.id] } ip
  unfold stepIP
  dsimp only
  split
  · exact ⟨hd.1, hd.2.1, Or.inl rfl, fun _ q hq => absurd hq (by simp)⟩
  · rename_i hdead
    split
    · rename_i hspawn
      refine ⟨hd.1, hd.2.1, Or.inr (Or.inl ⟨_, rfl, hd.2.2.1⟩), ?_⟩
      intro hss q hq
      rw [List.mem_singleton] at hq
      subst hq
      exact hd.2.2.2.1 hss
    · rename_i c hspawn
      obtain ⟨hcid, hcss, _hcd, _hcip⟩ := hd.2.2.2.2 c hspawn
      refine ⟨hd.1, hd.2.1, Or.inr (Or.inr ⟨_, _, rfl, hd.2.2.1, le_of_eq hcid.symm⟩), ?_⟩
      intro hss q hq
      rcases List.mem_pair.mp hq with hq | hq <;> subst hq
      · exact hd.2.2.2.1 hss
      · show ¬({ c with pos := fsStep (dispatch _ ip).1.space c.delta c.pos } : IP).ss = []
        rw [show ({ c with pos := fsStep (dispatch _ ip).1.space c.delta c.pos } : IP).ss = c.ss from rfl, hcss]
        exact hd.2.2.2.1 hss

lemma tickSegs_cons (env : Interp) (ip : IP) (rest : List IP) :
    tickSegs env (ip :: rest) =
      ((tickSegs (stepIP env ip).1 rest).1,
       (stepIP env ip).2 :: (tickSegs (stepIP env ip).1 rest).2) := rfl

lemma forall₂_mem_right {α β : Type} {R : α → β → Prop} :
    ∀ {l₁ : List α} {l₂ : List β}, List.Forall₂ R l₁ l₂ →
      ∀ b ∈ l₂, ∃ a ∈ l₁, R a b := by
  intro l₁ l₂ h
  induction h with
  | nil => intro b hb; exact absurd hb (by simp)
  | cons hr _ ih =>
      intro b hb
      rcases List.mem_cons.mp hb with hb | hb
      · subst hb; exact ⟨_, List.mem_cons_self _ _, hr⟩
      · obtain ⟨a, ha, har⟩ := ih b hb
        exact ⟨a, List.mem_cons_of_mem _ ha, har⟩

lemma tickSegs_props (ips : List IP) (env : Interp) :
    (tickSegs env ips).1.trace = env.trace ++ ips.map IP.id ∧
    env.nextId ≤ (tickSegs env ips).1.nextId ∧
    List.Forall₂ (fun ip seg => SegOk ip.id env.nextId seg) ips (tickSegs env ips).2 ∧
    ((∀ ip ∈ ips, ip.ss ≠ []) →
      ∀ seg ∈ (tickSegs env ips).2, ∀ q ∈ seg, q.ss ≠ []) := by
  induction ips generalizing env with
  | nil => simp [tickSegs]
  | cons ip rest ih =>
      obtain ⟨ht, hn, hseg, hss⟩ := stepIP_props env ip
      obtain ⟨ih_t, ih_n, ih_f2, ih_ss⟩ := ih (stepIP env ip).1
      rw [tickSegs_cons]
      refine ⟨?_, le_trans hn ih_n, ?_, ?_⟩
      · rw [ih_t, ht]; simp
      · exact List.Forall₂.cons hseg
          (List.Forall₂.imp (fun a b hab => hab.mono hn) ih_f2)
      · intro hall seg hsegmem q hq
        rcases List.mem_cons.mp hsegmem with hsm2 | hsm2
        · subst hsm2
          exact hss (hall ip (List.mem_cons_self _ _)) q hq
        · exact ih_ss (fun p hp => hall p (List.mem_cons_of_mem _ hp)) seg hsm2 q hq

lemma tick_def (s : MachineState) :
    tick s = ⟨(tickSegs s.env s.ips).1, (tickSegs s.env s.ips).2.flatten⟩ := rfl

lemma runFuel_nil (n : Nat) (s : MachineState) (h : s.ips = []) :
    runFuel n s = s := by
  cases n with
  | zero => rfl
  | succ m => simp [runFuel, h]

lemma tick_ss_inv (s : MachineState) (h : ∀ ip ∈ s.ips, ip.ss ≠ []) :
    ∀ ip ∈ (tick s).ips, ip.ss ≠ [] := by
  intro ip hip
  rw [tick_def] at hip
  obtain ⟨seg, hseg, hipseg⟩ := List.mem_flatten.mp hip
  exact (tickSegs_props s.ips s.env).2.2.2 h seg hseg ip hipseg

lemma runFuel_ss_inv (n : Nat) (s : MachineState)
    (h : ∀ ip ∈ s.ips, ip.ss ≠ []) :
    ∀ ip ∈ (runFuel n s).ips, ip.ss ≠ [] := by
  induction n generalizing s with
  | zero => exact h
  | succ m ih =>
      rw [runFuel]
      split
      · exact h
      · exact ih (tick s) (tick_ss_inv s h)

/-- C4: every IP's Stack-Stack contains at least one Stack in every
reachable state; begin_block grows the Stack-Stack by exactly one
Stack, and end_block executed when only one stack remains reflects the
IP (leaving the Stack-Stack untouched) instead of popping it. -/
theorem stackstack_never_empty (u : Bool) (buf : List Nat)
    (ins : List InpResp) (ws : List Int) (s : MachineState) (fuel : Nat)
    (hinit : initMachine u buf ins ws = some s) :
    (∀ ip ∈ (runFuel fuel s).ips, ip.ss ≠ []) ∧
    (∀ (n : Nat) (ip : IP), ip.ss ≠ [] →
      (beginBlock n ip).ss.length = ip.ss.length + 1) ∧
    (∀ (n : Nat) (ip : IP) (st : Stack), ip.ss = [st] →
      endBlock n ip = { ip with delta := negV ip.delta }) := by
  refine ⟨?_, ?_, ?_⟩
  · apply runFuel_ss_inv
    unfold initMachine at hinit
    cases hload : loadSrc u buf with
    | none => rw [hload] at hinit; exact absurd hinit (by simp)
    | some sp =>
        rw [hload] at hinit
        have hinit2 : some (⟨⟨sp, 1, ins, ws, [], [], []⟩,
            [⟨0, (0, 0), (1, 0), [[]], (0, 0), false⟩]⟩ : MachineState) = some s := hinit
        obtain rfl := Option.some.inj hinit2
        intro ip hip
        rcases List.mem_singleton.mp hip with rfl
        simp
  · intro n ip hss
    unfold beginBlock
    cases hc : ip.ss with
    | nil => exact absurd hc hss
    | cons t r =>
        simp [hc]
        try omega
  · intro n ip st hst
    unfold endBlock
    split
    · rename_i t s2 r heq
      rw [hst] at heq
      exact absurd heq (by simp)
    · rfl

/-- Witness for C4 at the concrete program "@": after one tick every
IP of the machine state has a non-empty Stack-Stack, begin_block at a
concrete IP grows the Stack-Stack, and end_block at a singleton
Stack-Stack reflects. -/
theorem stackstack_never_empty_witness :
    (∀ ip ∈ (runFuel 1 demoState).ips, ip.ss ≠ []) ∧
    (∀ (n : Nat) (ip : IP), ip.ss ≠ [] →
      (beginBlock n ip).ss.length = ip.ss.length + 1) ∧
    (∀ (n : Nat) (ip : IP) (st : Stack), ip.ss = [st] →
      endBlock n ip = { ip with delta := negV ip.delta }) :=
  stackstack_never_empty false [64] [] [] demoState 1 (by decide)

/-- C6: in one scheduler tick every IP live at the start of the tick is
dispatched exactly once, in live-sequence order (the dispatch trace
extends by exactly the ids of the live sequence, in order); the next
live sequence is the concatenation of per-IP segments in which a
split's sibling sits immediately after its parent; and a sibling
spawned during the tick carries a fresh id, so it is never one of the
ids dispatched in that same tick. -/
theorem scheduler_tick_dispatch_order (s : MachineState)
    (hb : ∀ ip ∈ s.ips, ip.id < s.env.nextId) :
    (tick s).env.trace = s.env.trace ++ s.ips.map IP.id ∧
    ∃ segs : List (List IP),
      (tick s).ips = segs.flatten ∧
      List.Forall₂ (fun ip seg => SegOk ip.id s.env.nextId seg) s.ips segs ∧
      ∀ seg ∈ segs, ∀ p q, seg = [p, q] → q.id ∉ s.ips.map IP.id := by
  obtain ⟨ht, _hn, hf2, _⟩ := tickSegs_props s.ips s.env
  refine ⟨ht, (tickSegs s.env s.ips).2, rfl, hf2, ?_⟩
  intro seg hseg p q hpq hmem
  obtain ⟨a, _ha, hsegok⟩ := forall₂_mem_right hf2 seg hseg
  subst hpq
  rcases hsegok with h | ⟨p2, hp2, _⟩ | ⟨p2, q2, hpq2, _hid, hqid⟩
  · exact absurd h (by simp)
  · exact absurd hp2 (by simp)
  · obtain ⟨b, hbmem, hbid⟩ := List.mem_map.mp hmem
    have hb2 := hb b hbmem
    have hq2 : q2 = q := by
      have := List.cons.inj hpq2
      have := List.cons.inj this.2
      exact this.1.symm
    rw [hq2] at hqid
    omega

/-- Witness for C6 at a concrete one-IP state: the tick's dispatch
trace is exactly the id of the one live IP, and the segment
decomposition exists. -/
theorem scheduler_tick_dispatch_order_witness :
    (tick demoState).env.trace = demoState.env.trace ++ demoState.ips.map IP.id ∧
    ∃ segs : List (List IP),
      (tick demoState).ips = segs.flatten ∧
      List.Forall₂ (fun ip seg => SegOk ip.id demoState.env.nextId seg)
        demoState.ips segs ∧
      ∀ seg ∈ segs, ∀ p q, seg = [p, q] → q.id ∉ demoState.ips.map IP.id :=
  scheduler_tick_dispatch_order demoState (by decide)

lemma mutateSS_other (l : List IP) (i j : Nat) (f : List Stack → List Stack)
    (h : i ≠ j) : (mutateSS l i f)[j]? = l[j]? := by
  induction l generalizing i j with
  | nil => cases i <;> rfl
  | cons ip rest ih =>
      cases i with
      | zero =>
          cases j with
          | zero => exact absurd rfl h
          | succ m => simp [mutateSS]
      | succ n =>
          cases j with
          | zero => simp [mutateSS]
          | succ m =>
              simp only [mutateSS, List.getElem?_cons_succ]
              exact ih n m (fun hnm => h (by rw [hnm]))

/-- C7: dispatching the split instruction spawns a sibling whose
Stack-Stack is deep-equal to the parent's, carrying a fresh id (the
current id counter, which is then advanced) and the negated delta; and
a Stack-Stack mutation performed through one IP of the live sequence
leaves every other IP untouched. -/
theorem split_deep_copy (env : Interp) (ip : IP)
    (hc : env.space.get ip.pos = 116) (hsm : ip.stringMode = false) :
    (∃ q, (dispatch env ip).2.spawn = some q ∧ q.ss = ip.ss ∧
      (dispatch env ip).2.ip.ss = ip.ss ∧ q.id = env.nextId ∧
      (dispatch env ip).1.nextId = env.nextId + 1 ∧
      (dispatch env ip).2.ip.id = ip.id ∧ q.delta = negV ip.delta ∧
      (dispatch env ip).2.dead = false) ∧
    (∀ (l : List IP) (i j : Nat) (f : List Stack → List Stack), i ≠ j →
      (mutateSS l i f)[j]? = l[j]?) := by
  constructor
  · unfold dispatch
    rw [hc]
    refine ⟨{ ip with id := env.nextId, delta := negV ip.delta }, ?_⟩
    norm_num [dispatchC, hsm, moveOp?, stackOp?, effOp?]
  · exact fun l i j f h => mutateSS_other l i j f h

/-- Witness for C7 at a concrete interpreter and IP sitting on a split
instruction. -/
theorem split_deep_copy_witness :
    (∃ q, (dispatch demoSplitEnv demoSplitIP).2.spawn = some q ∧
      q.ss = demoSplitIP.ss ∧
      (dispatch demoSplitEnv demoSplitIP).2.ip.ss = demoSplitIP.ss ∧
      q.id = demoSplitEnv.nextId ∧
      (dispatch demoSplitEnv demoSplitIP).1.nextId = demoSplitEnv.nextId + 1 ∧
      (dispatch demoSplitEnv demoSplitIP).2.ip.id = demoSplitIP.id ∧
      q.delta = negV demoSplitIP.delta ∧
      (dispatch demoSplitEnv demoSplitIP).2.dead = false) ∧
    (∀ (l : List IP) (i j : Nat) (f : List Stack → List Stack), i ≠ j →
      (mutateSS l i f)[j]? = l[j]?) :=
  split_deep_copy demoSplitEnv demoSplitIP (by decide) (by decide)

/-- C8: a negative return from the write callback terminates only the
issuing IP — its segment of the next live sequence is empty, while
every sibling is still dispatched in the same tick — and when that
termination leaves zero live IPs, the run loop settles immediately and
returns normally rather than crashing. -/
theorem io_failure_terminates_only_issuer
    (env : Interp) (ip : IP) (sibs : List IP) (r : Int) (rs : List Int)
    (hc : env.space.get ip.pos = 44) (hsm : ip.stringMode = false)
    (hw : env.writeResp = r :: rs) (hr : r < 0) :
    (stepIP env ip).2 = [] ∧
    (tick ⟨env, ip :: sibs⟩).env.trace =
      env.trace ++ [ip.id] ++ sibs.map IP.id ∧
    (tick ⟨env, [ip]⟩).ips = [] ∧
    (∀ n, runFuel n (tick ⟨env, [ip]⟩) = tick ⟨env, [ip]⟩) := by
  have h1 : (stepIP env ip).2 = [] := by
    unfold stepIP
    dsimp only
    unfold dispatch
    rw [show ({ env with trace := env.trace ++ [ip.id] } : Interp).space
          = env.space from rfl, hc]
    norm_num [dispatchC, hsm, moveOp?, stackOp?, effOp?, takeWriteResp, hw, hr]
  have h3 : (tick ⟨env, [ip]⟩).ips = [] := by
    rw [tick_def]
    show ((stepIP env ip).2 :: (tickSegs (stepIP env ip).1 []).2).flatten = []
    simp [h1, tickSegs]
  refine ⟨h1, ?_, h3, fun n => runFuel_nil n _ h3⟩
  have h2 := (tickSegs_props (ip :: sibs) env).1
  rw [tick_def]
  simp only [h2, List.map_cons]
  simp

/-- Witness for C8 at a concrete one-IP machine whose write callback
fails: the issuing IP terminates, the trace records its dispatch, and
the run settles with zero IPs. -/
theorem io_failure_terminates_only_issuer_witness :
    (stepIP demoFailEnv demoSplitIP).2 = [] ∧
    (tick ⟨demoFailEnv, demoSplitIP :: []⟩).env.trace =
      demoFailEnv.trace ++ [demoSplitIP.id] ++ List.map IP.id [] ∧
    (tick ⟨demoFailEnv, [demoSplitIP]⟩).ips = [] ∧
    (∀ n, runFuel n (tick ⟨demoFailEnv, [demoSplitIP]⟩) =
      tick ⟨demoFailEnv, [demoSplitIP]⟩) :=
  io_failure_terminates_only_issuer demoFailEnv demoSplitIP [] (-1) []
    (by decide) (by decide) (by decide) (by decide)

lemma subV_addV (p d : Coord) : subV (addV p d) d = p := by
  simp [addV, subV]

lemma wrapBack_inBox (lo hi d : Coord) (fuel : Nat) (q : Coord)
    (h : inBox lo hi q = true) :
    inBox lo hi (wrapBack lo hi d fuel q) = true := by
  induction fuel generalizing q with
  | zero => exact h
  | succ m ih =>
      rw [wrapBack]
      split
      · rename_i hin
        exact ih (subV q d) hin
      · exact h

lemma wrapBack_enter (lo hi d : Coord) (fuel : Nat) (p : Coord)
    (h : inBox lo hi (subV p d) = true) :
    inBox lo hi (wrapBack lo hi d (fuel + 1) p) = true := by
  rw [wrapBack, if_pos h]
  exact wrapBack_inBox lo hi d fuel (subV p d) h

lemma skipSpaces_inBox (sp : FungeSpace) (lo hi d : Coord) (fuel : Nat)
    (q : Coord) (h : inBox lo hi q = true) :
    inBox lo hi (skipSpaces sp lo hi d fuel q) = true := by
  induction fuel generalizing q with
  | zero => exact h
  | succ m ih =>
      rw [skipSpaces]
      split
      · exact h
      · split
        · rename_i hin
          exact ih (addV q d) hin
        · exact h

lemma wrapFuel_succ (lo hi : Coord) :
    wrapFuel lo hi =
      ((hi.1 - lo.1).toNat + (hi.2 - lo.2).toNat + 1) + 1 := rfl

lemma fsStep_eq_some (sp : FungeSpace) (d pos lo hi : Coord)
    (hb : sp.bounds = some (lo, hi)) :
    fsStep sp d pos =
      if inBox lo hi (addV pos d) = true then addV pos d
      else skipSpaces sp lo hi d (wrapFuel lo hi)
        (wrapBack lo hi d (wrapFuel lo hi) (addV pos d)) := by
  unfold fsStep
  rw [hb]

lemma fsStep_inBox (sp : FungeSpace) (lo hi d pos : Coord)
    (hb : sp.bounds = some (lo, hi)) (h : inBox lo hi pos = true) :
    inBox lo hi (fsStep sp d pos) = true := by
  rw [fsStep_eq_some sp d pos lo hi hb]
  split
  · rename_i hin
    exact hin
  · rw [wrapFuel_succ]
    exact skipSpaces_inBox sp lo hi d _ _
      (wrapBack_enter lo hi d _ (addV pos d) (by rw [subV_addV]; exact h))

lemma mem_boxFinset (lo hi p : Coord) :
    p ∈ boxFinset lo hi ↔ inBox lo hi p = true := by
  simp [boxFinset, Finset.mem_product, Finset.mem_Icc, inBox,
    Bool.and_eq_true, decide_eq_true_eq]
  tauto

/-- C5: when the position leaves the bounding box, the next position is
the Lahey-space relocation (backtrack from the opposite edge along the
delta, then skip spaces up to the box boundary); and stepping with a
fixed delta from inside the box, with no intervening writes, is
eventually periodic — some earlier position recurs and from then on the
whole cycle of positions repeats. -/
theorem wraparound_cycle (sp : FungeSpace) (lo hi d pos : Coord)
    (hb : sp.bounds = some (lo, hi)) (hp : inBox lo hi pos = true) :
    (inBox lo hi (addV pos d) = false →
      fsStep sp d pos =
        skipSpaces sp lo hi d (wrapFuel lo hi)
          (wrapBack lo hi d (wrapFuel lo hi) (addV pos d))) ∧
    ∃ i j, i < j ∧ (fsStep sp d)^[i] pos = (fsStep sp d)^[j] pos ∧
      ∀ k, (fsStep sp d)^[i + k] pos = (fsStep sp d)^[j + k] pos := by
  constructor
  · intro hout
    rw [fsStep_eq_some sp d pos lo hi hb, if_neg (by simp [hout])]
  · have hmem : ∀ n : Nat, (fsStep sp d)^[n] pos ∈ boxFinset lo hi := by
      intro n
      induction n with
      | zero => exact (mem_boxFinset lo hi pos).mpr hp
      | succ m ih =>
          rw [Function.iterate_succ_apply']
          exact (mem_boxFinset lo hi _).mpr
            (fsStep_inBox sp lo hi d _ hb ((mem_boxFinset lo hi _).mp ih))
    have hcard : (boxFinset lo hi).card <
        (Finset.range ((boxFinset lo hi).card + 1)).card := by
      simp
    obtain ⟨i, _hi, j, _hj, hne, heq⟩ :=
      Finset.exists_ne_map_eq_of_card_lt_of_maps_to hcard
        (fun n _ => hmem n)
    have main : ∀ a b : Nat, (fsStep sp d)^[a] pos = (fsStep sp d)^[b] pos →
        a < b →
        ∃ i j, i < j ∧ (fsStep sp d)^[i] pos = (fsStep sp d)^[j] pos ∧
          ∀ k, (fsStep sp d)^[i + k] pos = (fsStep sp d)^[j + k] pos := by
      intro a b hab hlt
      refine ⟨a, b, hlt, hab, fun k => ?_⟩
      rw [Nat.add_comm a k, Nat.add_comm b k,
        Function.iterate_add_apply, Function.iterate_add_apply, hab]
    rcases hne.lt_or_lt with hlt | hlt
    · exact main i j heq hlt
    · exact main j i heq.symm hlt

/-- Witness for C5 at a concrete one-cell space: stepping east from the
origin of a 1×1 box is eventually periodic. -/
theorem wraparound_cycle_witness :
    (inBox (0, 0) (0, 0) (addV (0, 0) (1, 0)) = false →
      fsStep demoSplitEnv.space (1, 0) (0, 0) =
        skipSpaces demoSplitEnv.space (0, 0) (0, 0) (1, 0)
          (wrapFuel (0, 0) (0, 0))
          (wrapBack (0, 0) (0, 0) (1, 0) (wrapFuel (0, 0) (0, 0))
            (addV (0, 0) (1, 0)))) ∧
    ∃ i j, i < j ∧
      (fsStep demoSplitEnv.space (1, 0))^[i] (0, 0) =
        (fsStep demoSplitEnv.space (1, 0))^[j] (0, 0) ∧
      ∀ k, (fsStep demoSplitEnv.space (1, 0))^[i + k] (0, 0) =
        (fsStep demoSplitEnv.space (1, 0))^[j + k] (0, 0) :=
  wraparound_cycle demoSplitEnv.space (0, 0) (0, 0) (1, 0) (0, 0)
    (by decide) (by decide)

lemma writeRow_get_away (sp : FungeSpace) (y x : Int) (row : List Nat)
    (q : Coord) (h : q.2 ≠ y ∨ q.1 < x) :
    (writeRow sp y x row).get q = sp.get q := by
  induction row generalizing sp x with
  | nil => rfl
  | cons c rest ih =>
      rw [writeRow, ih (sp.put (x, y) (Int.ofNat c)) (x + 1)
        (by rcases h with h | h
            · exact Or.inl h
            · exact Or.inr (by omega)), get_put]
      rcases h with h | h
      · rw [if_neg]
        intro hq
        rw [hq] at h
        exact h rfl
      · rw [if_neg]
        intro hq
        rw [hq] at h
        omega

lemma writeRow_get_at (sp : FungeSpace) (y x : Int) (row : List Nat)
    (i : Nat) (hi : i < row.length) :
    (writeRow sp y x row).get (x + Int.ofNat i, y) =
      Int.ofNat (row.get ⟨i, hi⟩) := by
  induction row generalizing sp x i with
  | nil => exact absurd hi (by simp)
  | cons c rest ih =>
      rw [writeRow]
      cases i with
      | zero =>
          rw [show (x + Int.ofNat 0, y) = (x, y) by simp]
          rw [writeRow_get_away _ y (x + 1) rest (x, y) (Or.inr (by omega)),
            get_put, if_pos rfl]
          rfl
      | succ m =>
          rw [show (x + Int.ofNat (m + 1), y) = ((x + 1) + Int.ofNat m, y) by
            simp; omega]
          rw [ih (sp.put (x, y) (Int.ofNat c)) (x + 1) m (by simpa using hi)]
          rfl

lemma writeRows_get_above (sp : FungeSpace) (y : Int) (rows : List (List Nat))
    (q : Coord) (h : q.2 < y) :
    (writeRows sp y rows).get q = sp.get q := by
  induction rows generalizing sp y with
  | nil => rfl
  | cons row rest ih =>
      rw [writeRows, ih (writeRow sp y 0 row) (y + 1) (by omega),
        writeRow_get_away sp y 0 row q (Or.inl (by omega))]

lemma writeRows_get_at (sp : FungeSpace) (y : Int) (rows : List (List Nat))
    (r i : Nat) (hr : r < rows.length)
    (hi : i < (rows.get ⟨r, hr⟩).length) :
    (writeRows sp y rows).get (Int.ofNat i, y + Int.ofNat r) =
      Int.ofNat ((rows.get ⟨r, hr⟩).get ⟨i, hi⟩) := by
  induction rows generalizing sp y r with
  | nil => exact absurd hr (by simp)
  | cons row rest ih =>
      rw [writeRows]
      cases r with
      | zero =>
          rw [show y + Int.ofNat 0 = y by simp]
          rw [writeRows_get_above (writeRow sp y 0 row) (y + 1) rest
            (Int.ofNat i, y) (by simp)]
          have := writeRow_get_at sp y 0 row i (by simpa using hi)
          rw [show (0 : Int) + Int.ofNat i = Int.ofNat i by simp] at this
          rw [this]
          rfl
      | succ m =>
          rw [show y + Int.ofNat (m + 1) = (y + 1) + Int.ofNat m by
            simp; omega]
          rw [ih (writeRow sp y 0 row) (y + 1) m (by simpa using hr)
            (by simpa using hi)]
          rfl

/-- C9: under Unicode cell mode a buffer that cannot be fully decoded
makes load-source fail, and the failure is reported to the host before
any execution begins (the run pipeline yields nothing); a buffer that
does decode loads successfully, and the decoded text sits in
Funge-space starting at the origin, one row per input line, row r
column i holding the i-th code point of line r. Byte mode never
fails. -/
theorem load_source_decode (buf : List Nat) (ins : List InpResp)
    (ws : List Int) (fuel : Nat) :
    (decodeUtf8 buf = none →
      loadSrc true buf = none ∧ runHost fuel true buf ins ws = none) ∧
    (∀ cps, decodeUtf8 buf = some cps →
      ∃ sp, loadSrc true buf = some sp ∧
        ∀ (r i : Nat) (hr : r < (splitLinesAux cps []).length)
          (hi : i < ((splitLinesAux cps []).get ⟨r, hr⟩).length),
          sp.get (Int.ofNat i, Int.ofNat r) =
            Int.ofNat (((splitLinesAux cps []).get ⟨r, hr⟩).get ⟨i, hi⟩)) ∧
    (∃ sp, loadSrc false buf = some sp) := by
  refine ⟨?_, ?_, ⟨_, rfl⟩⟩
  · intro h
    have hload : loadSrc true buf = none := by
      unfold loadSrc
      rw [if_pos rfl, h]
    refine ⟨hload, ?_⟩
    unfold runHost initMachine
    rw [hload]
    rfl
  · intro cps h
    have hload : loadSrc true buf =
        some (writeRows FungeSpace.empty 0 (splitLinesAux cps [])) := by
      unfold loadSrc
      rw [if_pos rfl, h]
    refine ⟨_, hload, ?_⟩
    intro r i hr hi
    have := writeRows_get_at FungeSpace.empty 0 (splitLinesAux cps []) r i hr hi
    rw [show (0 : Int) + Int.ofNat r = Int.ofNat r by simp] at this
    exact this

/-- Witness for C9: the stray continuation byte 255 fails to decode and
nothing runs, while the two-line ASCII buffer "@", newline, "@"
decodes, loads, and places the cell 64 at row 1, column 0. -/
theorem load_source_decode_witness :
    (loadSrc true [255] = none ∧ runHost 3 true [255] [] [] = none) ∧
    ∃ sp, loadSrc true [64, 10, 64] = some sp ∧ sp.get (0, 1) = 64 := by
  refine ⟨(load_source_decode [255] [] [] 3).1 (by decide), ?_⟩
  obtain ⟨sp, hsp, hchar⟩ :=
    (load_source_decode [64, 10, 64] [] [] 3).2.1 [64, 10, 64] (by decide)
  refine ⟨sp, hsp, ?_⟩
  have h10 : (1 : Nat) < (splitLinesAux [64, 10, 64] []).length := by decide
  have h00 : (0 : Nat) <
      ((splitLinesAux [64, 10, 64] []).get ⟨1, h10⟩).length := by
    rw [show (splitLinesAux [64, 10, 64] []).get ⟨1, h10⟩ = [64] from rfl]
    decide
  have := hchar 1 0 h10 h00
  simpa using this

end RFunge
